import Mathlib

/-!
Shallow embedding of the adaptive column-width layout engine of the `pda`
command-line client (package `cmd`, file `list.go`).

Modelling conventions:

* Go `int` is modelled as `Int` (no overflow occurs in the ranges the
  engine manipulates), `[]int` as `List Int`, `[]string` as `List String`.
* Go `float64` arithmetic inside `distributeWidths` is modelled exactly
  over `ℚ`: every weight produced by `basePercentageForColumn`
  (0.25, 0.5, 0.75) and every sum of such weights is a dyadic rational
  that float64 represents exactly; the only division results that are not
  exactly representable (1/3 and 2/3, for the Value+TTL column set)
  differ from the exact rational by a relative error of 2⁻⁵⁴, which never
  moves the truncation `int(...)` across an integer boundary for any
  width below 2⁵⁰.  Go's `int(...)` conversion truncates toward zero; all
  truncated values here are nonnegative, so it coincides with `Int.floor`.
* The external measuring function `text.LongestLineLen` is a parameter
  `longestLineLen : String → Int` of the tracker: only its values enter
  the computation.
* The glyph strings of a `table.Style` enter the computation only through
  `text.StringWidthWithoutEscSequences`, so a style is modelled by the
  visual widths of its glyphs (the width of a concatenation of two glyph
  strings is the sum of their widths).
* `term.GetSize` on the sink's and stdout's file descriptors is modelled
  by `Option Int` inputs (`some w` = the call succeeded and returned
  width `w`); the `COLUMNS` environment variable by a `String`
  (`""` = unset, as with `os.Getenv`).
-/

namespace Pda

/-- The closed enumeration `columnKind` of `list.go` with its three
constants `columnKey`, `columnValue`, `columnTTL`. -/
inductive columnKind where
| columnKey : columnKind
| columnValue : columnKind
| columnTTL : columnKind
deriving DecidableEq, BEq, Repr

open columnKind

/-- Embedding of `requireColumns`: builds the ordered column list from the
key/value/ttl flags and fails when no column is selected. -/
def requireColumns (key value ttl : Bool) : Option (List columnKind) :=
  let columns : List columnKind :=
    (if key then [columnKey] else []) ++
    (if value then [columnValue] else []) ++
    (if ttl then [columnTTL] else [])
  if columns.length = 0 then none else some columns

/-- Loop body of `updateMaxContentWidths`: walk the tracker and the row in
parallel for `min len(values) len(maxWidths)` steps, replacing each tracker
entry by the cell's longest-line width when that is larger. -/
def updateMaxGo (longestLineLen : String → Int) : List Int → List String → List Int
| [], _ => []
| ms, [] => ms
| m :: ms, v :: vs =>
  (if longestLineLen v > m then longestLineLen v else m) ::
    updateMaxGo longestLineLen ms vs

/-- Embedding of `updateMaxContentWidths` (the Content Width Tracker),
parameterised by the external measure `text.LongestLineLen`. -/
def updateMaxContentWidths (longestLineLen : String → Int)
    (maxWidths : List Int) (values : List String) : List Int :=
  if maxWidths.length = 0 then maxWidths
  else updateMaxGo longestLineLen maxWidths values

/-- The `minColWidth` constant of `distributeWidths`. -/
def minColWidth : Int := 10

/-- Embedding of `basePercentageForColumn`.  The Go `default` branch
(0.25 for unknown kinds) is unreachable: the enumeration is closed. -/
def basePercentageForColumn (c : columnKind) (hasTTL : Bool) : ℚ :=
  match c with
  | columnKey => 1/4
  | columnValue => if hasTTL then 1/2 else 3/4
  | columnTTL => 1/4

/-- One step of the remainder loop of `distributeWidths`: increment the
entry at position `i`, leaving the list unchanged when `i` is out of
range (which never happens for `i = counter % length`). -/
def bumpAt : List Int → Nat → List Int
| [], _ => []
| w :: ws, 0 => (w + 1) :: ws
| w :: ws, n + 1 => w :: bumpAt ws n

/-- The remainder loop of `distributeWidths`: hand out `remaining` single
characters round-robin, starting at loop counter `i`. -/
def distributeRemaining (widths : List Int) (i : Nat) : Nat → List Int
| 0 => widths
| r + 1 =>
  if widths.length = 0 then widths
  else distributeRemaining (bumpAt widths (i % widths.length)) (i + 1) r

/-- Embedding of `distributeWidths` (the Proportional Allocator). -/
def distributeWidths (total0 : Int) (columns : List columnKind) : List Int :=
  let total : Int := if total0 ≤ 0 then 100 else total0
  let hasTTL : Bool := columns.contains columnTTL
  let sum0 : ℚ := (columns.map (fun c => basePercentageForColumn c hasTTL)).sum
  let sum : ℚ := if sum0 = 0 then 1 else sum0
  let widths : List Int := columns.map (fun c =>
    let width : Int := ⌊(basePercentageForColumn c hasTTL / sum) * (total : ℚ)⌋
    if width < minColWidth then minColWidth else width)
  distributeRemaining widths 0 (total - widths.sum).toNat

/-- Clamping step of `applyColumnConstraints` (first `for` loop): floor
non-positive widths to 1 and clamp every width down to its observed
content cap when that cap is known and positive.  `idx` is the running
index into `maxContentWidths`. -/
def clampGo (maxContentWidths : List Int) : List Int → Nat → List Int
| [], _ => []
| w :: ws, idx =>
  let w1 : Int := if w ≤ 0 then 1 else w
  let w2 : Int :=
    match maxContentWidths.get? idx with
    | some actual => if actual > 0 ∧ w1 > actual then actual else w1
    | none => w1
  w2 :: clampGo maxContentWidths ws (idx + 1)

/-- The clamping step of `applyColumnConstraints`, started at index 0. -/
def clampWidths (widths maxContentWidths : List Int) : List Int :=
  clampGo maxContentWidths widths 0

/-- One full round-robin pass of the redistribution loop of
`applyColumnConstraints` (the inner `for idx := range widths`): hand a
character to every column not at its known cap, stopping early when
`remaining` hits zero.  Returns the new widths, the new `remaining`, and
the `progressed` flag. -/
def redistOnce (maxContentWidths : List Int) :
    List Int → Nat → Int → List Int × Int × Bool
| [], _, remaining => ([], remaining, false)
| w :: ws, idx, remaining =>
  let actual : Int := (maxContentWidths.get? idx).getD 0
  if actual > 0 ∧ w ≥ actual then
    let r := redistOnce maxContentWidths ws (idx + 1) remaining
    (w :: r.1, r.2.1, r.2.2)
  else if remaining - 1 = 0 then
    ((w + 1) :: ws, 0, true)
  else
    let r := redistOnce maxContentWidths ws (idx + 1) (remaining - 1)
    ((w + 1) :: r.1, r.2.1, true)

/-- The outer redistribution loop of `applyColumnConstraints`
(`for remaining > 0 { ... if !progressed { break } }`), written with
explicit fuel; `redistLoop_fuel` below shows that `remaining.toNat` units
of fuel always reach the loop's exit condition. -/
def redistLoop (maxContentWidths : List Int) :
    Nat → List Int → Int → List Int
| 0, widths, _ => widths
| fuel + 1, widths, remaining =>
  if remaining > 0 then
    let r := redistOnce maxContentWidths widths 0 remaining
    if r.2.2 then redistLoop maxContentWidths fuel r.1 r.2.1 else r.1
  else widths

/-- The width-plan computation of `applyColumnConstraints` for a given
usable content width: proportional allocation, clamping, and
redistribution of the freed budget. -/
def widthPlan (contentWidth : Int) (columns : List columnKind)
    (maxContentWidths : List Int) : List Int :=
  let widths := distributeWidths contentWidth columns
  let clamped := clampWidths widths maxContentWidths
  let remaining := contentWidth - clamped.sum
  redistLoop maxContentWidths remaining.toNat clamped remaining

/-- Visual widths of the glyphs of a `table.Style`'s `Box`, as measured by
`text.StringWidthWithoutEscSequences` (see the module conventions). -/
structure BoxStyle where
  paddingLeft : Int
  paddingRight : Int
  middleSeparator : Int
  emptySeparator : Int
  middleHorizontal : Int
  topSeparator : Int
  bottomSeparator : Int
  middleVertical : Int
  leftSeparator : Int
  rightSeparator : Int
  left : Int
  right : Int
deriving DecidableEq, Repr

/-- The two `table.Style.Options` flags read by the overhead calculator. -/
structure StyleOptions where
  separateColumns : Bool
  drawBorder : Bool
deriving DecidableEq, Repr

/-- The part of a `table.Style` that the layout engine reads. -/
structure TableStyle where
  box : BoxStyle
  options : StyleOptions
deriving DecidableEq, Repr

/-- Embedding of `maxSeparatorWidth`: fold the widest-so-far accumulator
over the eight separator glyph widths, starting from 0. -/
def maxSeparatorWidth (style : TableStyle) : Int :=
  [style.box.middleSeparator, style.box.emptySeparator,
   style.box.middleHorizontal, style.box.topSeparator,
   style.box.bottomSeparator, style.box.middleVertical,
   style.box.leftSeparator, style.box.rightSeparator].foldl
    (fun widest sep => if sep > widest then sep else widest) 0

/-- Embedding of `tableRowOverhead`.  The Go function receives a possibly
nil `*table.Style`; `none` models nil. -/
def tableRowOverhead (style : Option TableStyle) (columnCount : Nat) : Int :=
  match style with
  | none => 0
  | some st =>
    if columnCount = 0 then 0
    else
      let paddingWidth := st.box.paddingLeft + st.box.paddingRight
      let overhead := paddingWidth * (columnCount : Int)
      let overhead :=
        if st.options.separateColumns ∧ columnCount > 1 then
          overhead + ((columnCount : Int) - 1) * maxSeparatorWidth st
        else overhead
      let overhead :=
        if st.options.drawBorder then
          overhead + (st.box.left + st.box.right)
        else overhead
      overhead

/-- Embedding of `contentWidthForStyle`.  `tw.Style()` is modelled by the
`Option TableStyle` argument (`none` = nil style). -/
def contentWidthForStyle (totalWidth : Int) (style : Option TableStyle)
    (columnCount : Nat) : Int :=
  if columnCount = 0 then totalWidth
  else
    let tw :=
      match style with
      | some st => totalWidth - tableRowOverhead (some st) columnCount
      | none => totalWidth
    if tw < (columnCount : Int) then (columnCount : Int) else tw

/-- Embedding of `strconv.Atoi` restricted to what the probe needs: an
optional sign followed by at least one ASCII digit parses to the signed
value, anything else is an error (`none`).  The int64 range check of the
real `Atoi` is omitted: it only turns astronomically large `COLUMNS`
values into errors. -/
def digitsToNat : List Char → Option Nat
| [] => none
| cs =>
  if cs.all (fun c => c.isDigit) then
    some (cs.foldl (fun acc c => acc * 10 + (c.toNat - '0'.toNat)) 0)
  else none

/-- Signed decimal parse, modelling `strconv.Atoi`. -/
def atoi (s : String) : Option Int :=
  match s.toList with
  | '+' :: rest => (digitsToNat rest).map (fun n => (n : Int))
  | '-' :: rest => (digitsToNat rest).map (fun n => -(n : Int))
  | l => (digitsToNat l).map (fun n => (n : Int))

/-- Embedding of `detectTerminalWidth`.  `sinkSize` models
`term.GetSize(int(f.Fd()))` when the sink is an `fdWriter` (`none` = not
an fdWriter or the call errored), `stdoutSize` models
`term.GetSize(int(os.Stdout.Fd()))`, and `columnsEnv` models
`os.Getenv("COLUMNS")`. -/
def detectTerminalWidth (sinkSize stdoutSize : Option Int)
    (columnsEnv : String) : Int :=
  let fromEnv : Int :=
    if columnsEnv ≠ "" then
      match atoi columnsEnv with
      | some parsed => if parsed > 0 then parsed else 0
      | none => 0
    else 0
  let fromStdout : Int :=
    match stdoutSize with
    | some w => if w > 0 then w else fromEnv
    | none => fromEnv
  match sinkSize with
  | some w => if w > 0 then w else fromStdout
  | none => fromStdout

/-- The plan `applyColumnConstraints` computes once the total width is
fixed: the probed width floored to the default 100, the content width for
the style, the capped-and-redistributed widths, and the
`SetAllowedRowLength` argument. -/
def widthPlanForTotal (totalWidth0 : Int) (style : Option TableStyle)
    (columns : List columnKind) (maxContentWidths : List Int) :
    List Int × Int :=
  let totalWidth := if totalWidth0 ≤ 0 then 100 else totalWidth0
  let contentWidth := contentWidthForStyle totalWidth style columns.length
  (widthPlan contentWidth columns maxContentWidths, totalWidth)

/-- Embedding of `applyColumnConstraints` (the Layout Orchestrator):
probe the terminal, default to 100, subtract the style overhead,
distribute, cap and redistribute.  Returns the per-column `WidthMax`
values passed to `SetColumnConfigs` and the `SetAllowedRowLength`
argument. -/
def applyColumnConstraints (sinkSize stdoutSize : Option Int)
    (columnsEnv : String) (style : Option TableStyle)
    (columns : List columnKind) (maxContentWidths : List Int) :
    List Int × Int :=
  widthPlanForTotal (detectTerminalWidth sinkSize stdoutSize columnsEnv)
    style columns maxContentWidths

/-- The four render backends reachable from `buildSupportedListFormats`:
`tw.Render()`, `tw.RenderCSV()`, `tw.RenderHTML()`,
`tw.RenderMarkdown()`. -/
inductive RenderKind where
| table : RenderKind
| csv : RenderKind
| html : RenderKind
| markdown : RenderKind
deriving DecidableEq, Repr

/-- The `listFormat` record: whether the format limits column widths and
which render call it makes. -/
structure listFormat where
  limitColumns : Bool
  render : RenderKind
deriving DecidableEq, Repr

/-- The names in `tableStylePresets`. -/
def tableStylePresetNames : List String :=
  ["table", "tabular", "table-dark", "table-bright"]

/-- Embedding of `buildSupportedListFormats` as an association list: the
markup formats, then a `limitColumns` table entry per style preset, then
`auto` as an alias of `table`. -/
def buildSupportedListFormats : List (String × listFormat) :=
  let markdownSpec : listFormat := ⟨false, RenderKind.markdown⟩
  let formats : List (String × listFormat) :=
    [("csv", ⟨false, RenderKind.csv⟩),
     ("html", ⟨false, RenderKind.html⟩),
     ("markdown", markdownSpec),
     ("md", markdownSpec)] ++
    tableStylePresetNames.map (fun name => (name, ⟨true, RenderKind.table⟩))
  match formats.lookup "table" with
  | some defaultSpec => formats ++ [("auto", defaultSpec)]
  | none => formats

/-- Embedding of `resolveListFormat`: look a format name up in the
supported table. -/
def resolveListFormat (name : String) : Option listFormat :=
  buildSupportedListFormats.lookup name

/-- The width-related configuration `list` applies to the table writer:
`SetColumnConfigs` widths and `SetAllowedRowLength`, both `none` when the
format does not limit columns (`applyColumnConstraints` is then never
called), plus the render call made at the end.  `none` overall models the
unsupported-format error. -/
structure RenderEffects where
  columnConfigs : Option (List Int)
  allowedRowLength : Option Int
  render : RenderKind
deriving DecidableEq, Repr

/-- The layout-relevant slice of `list`: resolve the format, and apply
column constraints only when the format limits columns. -/
def listRenderEffects (formatName : String)
    (sinkSize stdoutSize : Option Int) (columnsEnv : String)
    (style : Option TableStyle) (columns : List columnKind)
    (maxContentWidths : List Int) : Option RenderEffects :=
  match resolveListFormat formatName with
  | none => none
  | some spec =>
    if spec.limitColumns then
      let plan := applyColumnConstraints sinkSize stdoutSize columnsEnv
        style columns maxContentWidths
      some ⟨some plan.1, some plan.2, spec.render⟩
    else
      some ⟨none, none, spec.render⟩

/-- Specification-side restatement for the terminal probe: the first
positive width among the candidate sources, 0 when none qualifies. -/
def firstPositive : List (Option Int) → Int
| [] => 0
| o :: rest =>
  match o with
  | some w => if w > 0 then w else firstPositive rest
  | none => firstPositive rest

/-- Specification-side restatement: the width of the single widest
candidate separator glyph across all separator roles the style defines. -/
def widestSeparatorSpec (style : TableStyle) : Int :=
  [style.box.middleSeparator, style.box.emptySeparator,
   style.box.middleHorizontal, style.box.topSeparator,
   style.box.bottomSeparator, style.box.middleVertical,
   style.box.leftSeparator, style.box.rightSeparator].foldr max 0

/-- Specification-side restatement of the style overhead: padding width
times column count, plus (column count − 1) times the widest separator
glyph when the style draws separators and more than one column is shown,
plus the left and right border widths when the style draws a border. -/
def tableRowOverheadSpec (style : TableStyle) (columnCount : Nat) : Int :=
  (style.box.paddingLeft + style.box.paddingRight) * (columnCount : Int) +
  (if style.options.separateColumns ∧ columnCount > 1 then
    ((columnCount : Int) - 1) * widestSeparatorSpec style
  else 0) +
  (if style.options.drawBorder then style.box.left + style.box.right else 0)

/-! ### Lemmas about the remainder loop of `distributeWidths` -/

theorem bumpAt_length (ws : List Int) (i : Nat) :
    (bumpAt ws i).length = ws.length := by
  induction ws generalizing i with
  | nil => rfl
  | cons w ws ih =>
    cases i with
    | zero => rfl
    | succ n => simp [bumpAt, ih]

theorem bumpAt_sum (ws : List Int) (i : Nat) (h : i < ws.length) :
    (bumpAt ws i).sum = ws.sum + 1 := by
  induction ws generalizing i with
  | nil => simp at h
  | cons w ws ih =>
    cases i with
    | zero => simp [bumpAt]; ring
    | succ n =>
      have hn : n < ws.length := by simpa using h
      simp [bumpAt, ih n hn]; ring

theorem bumpAt_mem_ge (c : Int) (ws : List Int) (i : Nat)
    (h : ∀ x ∈ ws, c ≤ x) : ∀ y ∈ bumpAt ws i, c ≤ y := by
  induction ws generalizing i with
  | nil => intro y hy; simp [bumpAt] at hy
  | cons w ws ih =>
    cases i with
    | zero =>
      intro y hy
      rcases List.mem_cons.mp hy with h1 | h1
      · have : c ≤ w := h w (List.mem_cons_self _ _)
        omega
      · exact h y (List.mem_cons_of_mem _ h1)
    | succ n =>
      intro y hy
      rcases List.mem_cons.mp hy with h1 | h1
      · subst h1; exact h y (List.mem_cons_self _ _)
      · exact ih n (fun x hx => h x (List.mem_cons_of_mem _ hx)) y h1

theorem distributeRemaining_sum (n : Nat) :
    ∀ (ws : List Int) (i : Nat), ws ≠ [] →
      (distributeRemaining ws i n).sum = ws.sum + n := by
  induction n with
  | zero => intro ws i _; simp [distributeRemaining]
  | succ n ih =>
    intro ws i h
    have hlen : ¬ (ws.length = 0) := by simpa [List.length_eq_zero] using h
    have hpos : 0 < ws.length := Nat.pos_of_ne_zero hlen
    have hblen : (bumpAt ws (i % ws.length)).length = ws.length :=
      bumpAt_length ws _
    have hbne : bumpAt ws (i % ws.length) ≠ [] := by
      intro hcontra
      rw [hcontra] at hblen
      simp at hblen
      omega
    simp only [distributeRemaining, if_neg hlen]
    rw [ih _ _ hbne, bumpAt_sum ws _ (Nat.mod_lt i hpos)]
    push_cast
    ring

theorem distributeRemaining_mem_ge (c : Int) (n : Nat) :
    ∀ (ws : List Int) (i : Nat), (∀ x ∈ ws, c ≤ x) →
      ∀ y ∈ distributeRemaining ws i n, c ≤ y := by
  induction n with
  | zero => intro ws i h; simpa [distributeRemaining] using h
  | succ n ih =>
    intro ws i h
    by_cases hlen : ws.length = 0
    · simpa [distributeRemaining, hlen] using h
    · simp only [distributeRemaining, if_neg hlen]
      exact ih _ _ (bumpAt_mem_ge c ws _ h)

theorem distributeRemaining_length (n : Nat) :
    ∀ (ws : List Int) (i : Nat),
      (distributeRemaining ws i n).length = ws.length := by
  induction n with
  | zero => intro ws i; rfl
  | succ n ih =>
    intro ws i
    by_cases hlen : ws.length = 0
    · simp [distributeRemaining, hlen]
    · simp only [distributeRemaining, if_neg hlen]
      rw [ih, bumpAt_length]

/-! ### Floor arithmetic for the proportional ratios -/

theorem floor_one_div_four (w : ℤ) : ⌊(1 / 4 : ℚ) * (w : ℚ)⌋ = w / 4 := by
  have h := Rat.floor_intCast_div_natCast w 4
  rw [show ((w : ℤ) : ℚ) / ((4 : ℕ) : ℚ) = (1 / 4 : ℚ) * (w : ℚ) by
    push_cast; ring] at h
  rw [h]
  norm_num

theorem floor_three_div_four (w : ℤ) :
    ⌊(3 / 4 : ℚ) * (w : ℚ)⌋ = 3 * w / 4 := by
  have h := Rat.floor_intCast_div_natCast (3 * w) 4
  rw [show ((3 * w : ℤ) : ℚ) / ((4 : ℕ) : ℚ) = (3 / 4 : ℚ) * (w : ℚ) by
    push_cast; ring] at h
  rw [h]
  norm_num

theorem floor_one_div_two (w : ℤ) : ⌊(1 / 2 : ℚ) * (w : ℚ)⌋ = w / 2 := by
  have h := Rat.floor_intCast_div_natCast w 2
  rw [show ((w : ℤ) : ℚ) / ((2 : ℕ) : ℚ) = (1 / 2 : ℚ) * (w : ℚ) by
    push_cast; ring] at h
  rw [h]
  norm_num

theorem floor_one_div_three (w : ℤ) : ⌊(1 / 3 : ℚ) * (w : ℚ)⌋ = w / 3 := by
  have h := Rat.floor_intCast_div_natCast w 3
  rw [show ((w : ℤ) : ℚ) / ((3 : ℕ) : ℚ) = (1 / 3 : ℚ) * (w : ℚ) by
    push_cast; ring] at h
  rw [h]
  norm_num

theorem floor_two_div_three (w : ℤ) :
    ⌊(2 / 3 : ℚ) * (w : ℚ)⌋ = 2 * w / 3 := by
  have h := Rat.floor_intCast_div_natCast (2 * w) 3
  rw [show ((2 * w : ℤ) : ℚ) / ((3 : ℕ) : ℚ) = (2 / 3 : ℚ) * (w : ℚ) by
    push_cast; ring] at h
  rw [h]
  norm_num

/-! ### Evaluation of `distributeWidths` on each valid column set

For widths of at least 40, every normalized share is at least a quarter of
the budget, so the 10-character minimum never engages and the initial
allocation is the floored proportional share. -/

theorem distributeWidths_eval_k (w : ℤ) (hw : 40 ≤ w) :
    distributeWidths w [columnKey] = [w] := by
  have h0 : ¬ (w ≤ 0) := by omega
  have hct : ([columnKey].contains columnTTL) = false := rfl
  simp only [distributeWidths, hct, if_neg h0]
  norm_num [basePercentageForColumn, minColWidth, List.map_cons, List.map_nil,
    List.sum_cons, List.sum_nil]
  rw [if_neg (by omega : ¬ (w < 10))]
  simp [distributeRemaining]

theorem distributeWidths_eval_v (w : ℤ) (hw : 40 ≤ w) :
    distributeWidths w [columnValue] = [w] := by
  have h0 : ¬ (w ≤ 0) := by omega
  have hct : ([columnValue].contains columnTTL) = false := rfl
  simp only [distributeWidths, hct, if_neg h0]
  norm_num [basePercentageForColumn, minColWidth, List.map_cons, List.map_nil,
    List.sum_cons, List.sum_nil]
  rw [if_neg (by omega : ¬ (w < 10))]
  simp [distributeRemaining]

theorem distributeWidths_eval_t (w : ℤ) (hw : 40 ≤ w) :
    distributeWidths w [columnTTL] = [w] := by
  have h0 : ¬ (w ≤ 0) := by omega
  have hct : ([columnTTL].contains columnTTL) = true := rfl
  simp only [distributeWidths, hct, if_neg h0]
  norm_num [basePercentageForColumn, minColWidth, List.map_cons, List.map_nil,
    List.sum_cons, List.sum_nil]
  rw [if_neg (by omega : ¬ (w < 10))]
  simp [distributeRemaining]

theorem distributeWidths_eval_kv (w : ℤ) (hw : 40 ≤ w) :
    distributeWidths w [columnKey, columnValue] =
      distributeRemaining [w / 4, 3 * w / 4] 0
        (w - (w / 4 + 3 * w / 4)).toNat := by
  have h0 : ¬ (w ≤ 0) := by omega
  have hct : ([columnKey, columnValue].contains columnTTL) = false := rfl
  simp only [distributeWidths, hct, if_neg h0]
  norm_num [basePercentageForColumn, minColWidth, List.map_cons, List.map_nil,
    List.sum_cons, List.sum_nil]
  rw [floor_one_div_four, floor_three_div_four]
  rw [if_neg (by omega : ¬ (w / 4 < 10)),
    if_neg (by omega : ¬ (3 * w / 4 < 10))]

theorem distributeWidths_eval_kt (w : ℤ) (hw : 40 ≤ w) :
    distributeWidths w [columnKey, columnTTL] =
      distributeRemaining [w / 2, w / 2] 0 (w - (w / 2 + w / 2)).toNat := by
  have h0 : ¬ (w ≤ 0) := by omega
  have hct : ([columnKey, columnTTL].contains columnTTL) = true := rfl
  simp only [distributeWidths, hct, if_neg h0]
  norm_num [basePercentageForColumn, minColWidth, List.map_cons, List.map_nil,
    List.sum_cons, List.sum_nil]
  rw [floor_one_div_two]
  rw [if_neg (by omega : ¬ (w / 2 < 10))]

theorem distributeWidths_eval_vt (w : ℤ) (hw : 40 ≤ w) :
    distributeWidths w [columnValue, columnTTL] =
      distributeRemaining [2 * w / 3, w / 3] 0
        (w - (2 * w / 3 + w / 3)).toNat := by
  have h0 : ¬ (w ≤ 0) := by omega
  have hct : ([columnValue, columnTTL].contains columnTTL) = true := rfl
  simp only [distributeWidths, hct, if_neg h0]
  norm_num [basePercentageForColumn, minColWidth, List.map_cons, List.map_nil,
    List.sum_cons, List.sum_nil]
  rw [floor_two_div_three, floor_one_div_three]
  rw [if_neg (by omega : ¬ (2 * w / 3 < 10)),
    if_neg (by omega : ¬ (w / 3 < 10))]

theorem distributeWidths_eval_kvt (w : ℤ) (hw : 40 ≤ w) :
    distributeWidths w [columnKey, columnValue, columnTTL] =
      distributeRemaining [w / 4, w / 2, w / 4] 0
        (w - (w / 4 + (w / 2 + w / 4))).toNat := by
  have h0 : ¬ (w ≤ 0) := by omega
  have hct : ([columnKey, columnValue, columnTTL].contains columnTTL) = true :=
    rfl
  simp only [distributeWidths, hct, if_neg h0]
  norm_num [basePercentageForColumn, minColWidth, List.map_cons, List.map_nil,
    List.sum_cons, List.sum_nil]
  rw [floor_one_div_four, floor_one_div_two]
  rw [if_neg (by omega : ¬ (w / 4 < 10)),
    if_neg (by omega : ¬ (w / 2 < 10))]

/-- Every width produced by the Proportional Allocator is at least the
10-character minimum, for every budget and every column list. -/
theorem distributeWidths_mem_ge (w : ℤ) (cols : List columnKind) :
    ∀ y ∈ distributeWidths w cols, minColWidth ≤ y := by
  unfold distributeWidths
  apply distributeRemaining_mem_ge
  intro x hx
  rcases List.mem_map.mp hx with ⟨c, _, rfl⟩
  dsimp only
  split <;> omega

/-- On every column set the CLI can build, a budget of at least 40 is
distributed exactly: every share clears the minimum, the floors sum to at
most the budget, and the remainder loop hands out the difference. -/
theorem distributeWidths_sum_valid (key value ttl : Bool)
    (cols : List columnKind) (h : requireColumns key value ttl = some cols)
    (w : ℤ) (hw : 40 ≤ w) : (distributeWidths w cols).sum = w := by
  cases key <;> cases value <;> cases ttl <;>
    simp [requireColumns] at h <;> subst h
  · rw [distributeWidths_eval_t w hw]; simp
  · rw [distributeWidths_eval_v w hw]; simp
  · rw [distributeWidths_eval_vt w hw,
      distributeRemaining_sum _ _ _ (by simp)]
    simp only [List.sum_cons, List.sum_nil]
    omega
  · rw [distributeWidths_eval_k w hw]; simp
  · rw [distributeWidths_eval_kt w hw,
      distributeRemaining_sum _ _ _ (by simp)]
    simp only [List.sum_cons, List.sum_nil]
    omega
  · rw [distributeWidths_eval_kv w hw,
      distributeRemaining_sum _ _ _ (by simp)]
    simp only [List.sum_cons, List.sum_nil]
    omega
  · rw [distributeWidths_eval_kvt w hw,
      distributeRemaining_sum _ _ _ (by simp)]
    simp only [List.sum_cons, List.sum_nil]
    omega

/-! ### Lemmas about the clamping step -/

theorem clampGo_length (m : List Int) :
    ∀ (ws : List Int) (i : Nat), (clampGo m ws i).length = ws.length := by
  intro ws
  induction ws with
  | nil => intro i; rfl
  | cons w ws ih => intro i; simp [clampGo, ih]

theorem clampGo_mem_ge_one (m : List Int) :
    ∀ (ws : List Int) (i : Nat), ∀ y ∈ clampGo m ws i, 1 ≤ y := by
  intro ws
  induction ws with
  | nil => intro i y hy; simp [clampGo] at hy
  | cons w ws ih =>
    intro i y hy
    simp only [clampGo] at hy
    rcases List.mem_cons.mp hy with h1 | h1
    · subst h1
      cases hm : m.get? i with
      | none => simp only [hm]; split <;> omega
      | some actual =>
        simp only [hm]
        split
        · omega
        · split <;> omega
    · exact ih (i + 1) y h1

theorem clampGo_sum_le (m : List Int) :
    ∀ (ws : List Int) (i : Nat), (∀ x ∈ ws, 0 < x) →
      (clampGo m ws i).sum ≤ ws.sum := by
  intro ws
  induction ws with
  | nil => intro i _; simp [clampGo]
  | cons w ws ih =>
    intro i h
    have hw : 0 < w := h w (List.mem_cons_self _ _)
    have htail := ih (i + 1) (fun x hx => h x (List.mem_cons_of_mem _ hx))
    simp only [clampGo, List.sum_cons]
    cases hm : m.get? i with
    | none => simp only [hm]; split <;> omega
    | some actual => simp only [hm]; split_ifs <;> omega

theorem clampGo_cap (m : List Int) :
    ∀ (ws : List Int) (i j : Nat) (C : Int), m.get? (i + j) = some C →
      0 < C → ∀ w', (clampGo m ws i).get? j = some w' → w' ≤ C := by
  intro ws
  induction ws with
  | nil => intro i j C _ _ w' hw'; simp [clampGo] at hw'
  | cons w ws ih =>
    intro i j C hm hC w' hw'
    cases j with
    | zero =>
      rw [Nat.add_zero] at hm
      simp only [clampGo, hm, List.get?_cons_zero, Option.some.injEq] at hw'
      subst hw'
      split <;> omega
    | succ n =>
      simp only [clampGo, List.get?_cons_succ] at hw'
      exact ih (i + 1) n C (by rw [show i + 1 + n = i + (n + 1) by omega]; exact hm)
        hC w' hw'

/-! ### Lemmas about one round-robin pass -/

theorem redistOnce_sum (m : List Int) :
    ∀ (ws : List Int) (i : Nat) (r : Int),
      (redistOnce m ws i r).1.sum + (redistOnce m ws i r).2.1 =
        ws.sum + r := by
  intro ws
  induction ws with
  | nil => intro i r; simp [redistOnce]
  | cons w ws ih =>
    intro i r
    simp only [redistOnce]
    split
    · have := ih (i + 1) r
      dsimp only
      simp only [List.sum_cons]
      omega
    · split
      · dsimp only
        simp only [List.sum_cons]
        omega
      · have := ih (i + 1) (r - 1)
        dsimp only
        simp only [List.sum_cons]
        omega

theorem redistOnce_rem_le (m : List Int) :
    ∀ (ws : List Int) (i : Nat) (r : Int),
      (redistOnce m ws i r).2.1 ≤ r := by
  intro ws
  induction ws with
  | nil => intro i r; simp [redistOnce]
  | cons w ws ih =>
    intro i r
    simp only [redistOnce]
    split
    · exact ih (i + 1) r
    · split
      · dsimp only; omega
      · have := ih (i + 1) (r - 1)
        dsimp only
        omega

theorem redistOnce_rem_nonneg (m : List Int) :
    ∀ (ws : List Int) (i : Nat) (r : Int), 1 ≤ r →
      0 ≤ (redistOnce m ws i r).2.1 := by
  intro ws
  induction ws with
  | nil => intro i r hr; simp [redistOnce]; omega
  | cons w ws ih =>
    intro i r hr
    simp only [redistOnce]
    split
    · exact ih (i + 1) r hr
    · split
      · dsimp only; omega
      · rename_i hr1
        exact ih (i + 1) (r - 1) (by omega)

theorem redistOnce_progress (m : List Int) :
    ∀ (ws : List Int) (i : Nat) (r : Int),
      (redistOnce m ws i r).2.2 = true → (redistOnce m ws i r).2.1 < r := by
  intro ws
  induction ws with
  | nil => intro i r hp; simp [redistOnce] at hp
  | cons w ws ih =>
    intro i r hp
    simp only [redistOnce] at hp ⊢
    by_cases hc : (m.get? i).getD 0 > 0 ∧ w ≥ (m.get? i).getD 0
    · rw [if_pos hc] at hp ⊢
      dsimp only at hp ⊢
      exact ih (i + 1) r hp
    · rw [if_neg hc] at hp ⊢
      by_cases hr : r - 1 = 0
      · rw [if_pos hr]
        dsimp only
        omega
      · rw [if_neg hr]
        dsimp only
        have := redistOnce_rem_le m ws (i + 1) (r - 1)
        omega

theorem redistOnce_no_progress (m : List Int) :
    ∀ (ws : List Int) (i : Nat) (r : Int),
      (redistOnce m ws i r).2.2 = false →
        (redistOnce m ws i r).1 = ws ∧ (redistOnce m ws i r).2.1 = r := by
  intro ws
  induction ws with
  | nil => intro i r _; simp [redistOnce]
  | cons w ws ih =>
    intro i r hp
    simp only [redistOnce] at hp ⊢
    by_cases hc : (m.get? i).getD 0 > 0 ∧ w ≥ (m.get? i).getD 0
    · rw [if_pos hc] at hp ⊢
      dsimp only at hp ⊢
      obtain ⟨h1, h2⟩ := ih (i + 1) r hp
      rw [h1, h2]
      exact ⟨rfl, rfl⟩
    · rw [if_neg hc] at hp
      by_cases hr : r - 1 = 0
      · rw [if_pos hr] at hp
        dsimp only at hp
        simp at hp
      · rw [if_neg hr] at hp
        dsimp only at hp
        simp at hp

theorem redistOnce_length (m : List Int) :
    ∀ (ws : List Int) (i : Nat) (r : Int),
      (redistOnce m ws i r).1.length = ws.length := by
  intro ws
  induction ws with
  | nil => intro i r; rfl
  | cons w ws ih =>
    intro i r
    simp only [redistOnce]
    split
    · simp [ih]
    · split
      · simp
      · simp [ih]

theorem redistOnce_mem_ge (m : List Int) (c : Int) :
    ∀ (ws : List Int) (i : Nat) (r : Int), (∀ x ∈ ws, c ≤ x) →
      ∀ y ∈ (redistOnce m ws i r).1, c ≤ y := by
  intro ws
  induction ws with
  | nil => intro i r _ y hy; simp [redistOnce] at hy
  | cons w ws ih =>
    intro i r h y hy
    have hw : c ≤ w := h w (List.mem_cons_self _ _)
    have htail : ∀ x ∈ ws, c ≤ x := fun x hx => h x (List.mem_cons_of_mem _ hx)
    simp only [redistOnce] at hy
    by_cases hc : (m.get? i).getD 0 > 0 ∧ w ≥ (m.get? i).getD 0
    · rw [if_pos hc] at hy
      dsimp only at hy
      rcases List.mem_cons.mp hy with h1 | h1
      · omega
      · exact ih (i + 1) r htail y h1
    · rw [if_neg hc] at hy
      by_cases hr : r - 1 = 0
      · rw [if_pos hr] at hy
        dsimp only at hy
        rcases List.mem_cons.mp hy with h1 | h1
        · omega
        · exact htail y h1
      · rw [if_neg hr] at hy
        dsimp only at hy
        rcases List.mem_cons.mp hy with h1 | h1
        · omega
        · exact ih (i + 1) (r - 1) htail y h1

theorem redistOnce_cap (m : List Int) :
    ∀ (ws : List Int) (i j : Nat) (r : Int) (C w : Int),
      m.get? (i + j) = some C → 0 < C → ws.get? j = some w → w ≤ C →
      ∀ w', (redistOnce m ws i r).1.get? j = some w' → w' ≤ C := by
  intro ws
  induction ws with
  | nil =>
    intro i j r C w _ _ hj
    simp at hj
  | cons w0 ws ih =>
    intro i j r C w hm hC hj hwC w' hw'
    simp only [redistOnce] at hw'
    cases j with
    | zero =>
      rw [Nat.add_zero] at hm
      simp only [List.get?_cons_zero, Option.some.injEq] at hj
      subst hj
      by_cases hc : (m.get? i).getD 0 > 0 ∧ w0 ≥ (m.get? i).getD 0
      · rw [if_pos hc] at hw'
        dsimp only at hw'
        simp only [List.get?_cons_zero, Option.some.injEq] at hw'
        omega
      · rw [if_neg hc] at hw'
        rw [hm] at hc
        simp only [Option.getD_some, not_and, not_le] at hc
        have hlt : w0 < C := hc hC
        by_cases hr : r - 1 = 0
        · rw [if_pos hr] at hw'
          dsimp only at hw'
          simp only [List.get?_cons_zero, Option.some.injEq] at hw'
          omega
        · rw [if_neg hr] at hw'
          dsimp only at hw'
          simp only [List.get?_cons_zero, Option.some.injEq] at hw'
          omega
    | succ n =>
      simp only [List.get?_cons_succ] at hj
      have hm' : m.get? (i + 1 + n) = some C := by
        rw [show i + 1 + n = i + (n + 1) by omega]; exact hm
      by_cases hc : (m.get? i).getD 0 > 0 ∧ w0 ≥ (m.get? i).getD 0
      · rw [if_pos hc] at hw'
        dsimp only at hw'
        simp only [List.get?_cons_succ] at hw'
        exact ih (i + 1) n r C w hm' hC hj hwC w' hw'
      · rw [if_neg hc] at hw'
        by_cases hr : r - 1 = 0
        · rw [if_pos hr] at hw'
          dsimp only at hw'
          simp only [List.get?_cons_succ] at hw'
          rw [hj] at hw'
          simp only [Option.some.injEq] at hw'
          omega
        · rw [if_neg hr] at hw'
          dsimp only at hw'
          simp only [List.get?_cons_succ] at hw'
          exact ih (i + 1) n (r - 1) C w hm' hC hj hwC w' hw'

/-! ### Lemmas about the outer redistribution loop -/

theorem redistLoop_sum_le (m : List Int) :
    ∀ (fuel : Nat) (ws : List Int) (r : Int),
      (redistLoop m fuel ws r).sum ≤ ws.sum + r.toNat := by
  intro fuel
  induction fuel with
  | zero => intro ws r; simp only [redistLoop]; omega
  | succ fuel ih =>
    intro ws r
    simp only [redistLoop]
    split
    · rename_i hr
      have hsum := redistOnce_sum m ws 0 r
      have hnn := redistOnce_rem_nonneg m ws 0 r (by omega)
      split
      · have := ih (redistOnce m ws 0 r).1 (redistOnce m ws 0 r).2.1
        omega
      · omega
    · omega

theorem redistLoop_mem_ge (m : List Int) (c : Int) :
    ∀ (fuel : Nat) (ws : List Int) (r : Int), (∀ x ∈ ws, c ≤ x) →
      ∀ y ∈ redistLoop m fuel ws r, c ≤ y := by
  intro fuel
  induction fuel with
  | zero => intro ws r h; simpa [redistLoop] using h
  | succ fuel ih =>
    intro ws r h
    simp only [redistLoop]
    split
    · split
      · exact ih _ _ (redistOnce_mem_ge m c ws 0 r h)
      · exact redistOnce_mem_ge m c ws 0 r h
    · exact h

theorem redistLoop_length (m : List Int) :
    ∀ (fuel : Nat) (ws : List Int) (r : Int),
      (redistLoop m fuel ws r).length = ws.length := by
  intro fuel
  induction fuel with
  | zero => intro ws r; rfl
  | succ fuel ih =>
    intro ws r
    simp only [redistLoop]
    split
    · split
      · rw [ih, redistOnce_length]
      · rw [redistOnce_length]
    · rfl

theorem redistLoop_cap (m : List Int) :
    ∀ (fuel : Nat) (ws : List Int) (r : Int) (j : Nat) (C w : Int),
      m.get? j = some C → 0 < C → ws.get? j = some w → w ≤ C →
      ∀ w', (redistLoop m fuel ws r).get? j = some w' → w' ≤ C := by
  intro fuel
  induction fuel with
  | zero =>
    intro ws r j C w hm _ hj hwC w' hw'
    simp only [redistLoop] at hw'
    rw [hj] at hw'
    simp only [Option.some.injEq] at hw'
    omega
  | succ fuel ih =>
    intro ws r j C w hm hC hj hwC w' hw'
    have hm0 : m.get? (0 + j) = some C := by rw [Nat.zero_add]; exact hm
    have hjlt : j < ws.length := by
      by_contra hge
      rw [List.get?_eq_none.mpr (by omega)] at hj
      exact Option.noConfusion hj
    have hjlt' : j < (redistOnce m ws 0 r).1.length := by
      rw [redistOnce_length]; exact hjlt
    simp only [redistLoop] at hw'
    split at hw'
    · cases hres : (redistOnce m ws 0 r).1.get? j with
      | none =>
        rw [List.get?_eq_none] at hres
        omega
      | some w2 =>
        have hw2 : w2 ≤ C :=
          redistOnce_cap m ws 0 j r C w hm0 hC hj hwC w2 hres
        split at hw'
        · exact ih _ _ j C w2 hm hC hres hw2 w' hw'
        · rw [hres] at hw'
          simp only [Option.some.injEq] at hw'
          omega
    · rw [hj] at hw'
      simp only [Option.some.injEq] at hw'
      omega

/-- Fuel-independence of the redistribution loop: `remaining.toNat` passes
always suffice to reach the loop's exit (either `remaining = 0` or a pass
with no progress), so any larger fuel computes the same result.  This is
the termination argument for the Go `for remaining > 0` loop. -/
theorem redistLoop_fuel (m : List Int) :
    ∀ (f1 : Nat) (ws : List Int) (r : Int) (f2 : Nat),
      r.toNat ≤ f1 → r.toNat ≤ f2 →
      redistLoop m f1 ws r = redistLoop m f2 ws r := by
  intro f1
  induction f1 with
  | zero =>
    intro ws r f2 h1 _
    cases f2 with
    | zero => rfl
    | succ k =>
      simp only [redistLoop]
      rw [if_neg (by omega : ¬ r > 0)]
  | succ f1 ih =>
    intro ws r f2 h1 h2
    cases f2 with
    | zero =>
      simp only [redistLoop]
      rw [if_neg (by omega : ¬ r > 0)]
    | succ k =>
      simp only [redistLoop]
      by_cases hr : r > 0
      · rw [if_pos hr, if_pos hr]
        by_cases hp : (redistOnce m ws 0 r).2.2 = true
        · rw [if_pos hp, if_pos hp]
          have hlt := redistOnce_progress m ws 0 r hp
          have hnn := redistOnce_rem_nonneg m ws 0 r (by omega)
          exact ih _ _ k (by omega) (by omega)
        · rw [if_neg hp, if_neg hp]
      · rw [if_neg hr, if_neg hr]

/-! ### WidthPlan-level lemmas -/

theorem widthPlan_mem_ge_one (cw : Int) (cols : List columnKind)
    (maxW : List Int) : ∀ y ∈ widthPlan cw cols maxW, 1 ≤ y := by
  unfold widthPlan
  apply redistLoop_mem_ge
  apply clampGo_mem_ge_one

theorem widthPlan_sum_le (key value ttl : Bool) (cols : List columnKind)
    (h : requireColumns key value ttl = some cols) (cw : Int)
    (hcw : 40 ≤ cw) (maxW : List Int) :
    (widthPlan cw cols maxW).sum ≤ cw := by
  simp only [widthPlan]
  have hdw : (distributeWidths cw cols).sum = cw :=
    distributeWidths_sum_valid key value ttl cols h cw hcw
  have hpos : ∀ x ∈ distributeWidths cw cols, (0 : Int) < x := by
    intro x hx
    have := distributeWidths_mem_ge cw cols x hx
    unfold minColWidth at this
    omega
  have hclamp : (clampWidths (distributeWidths cw cols) maxW).sum ≤ cw := by
    unfold clampWidths
    calc (clampGo maxW (distributeWidths cw cols) 0).sum
        ≤ (distributeWidths cw cols).sum :=
          clampGo_sum_le maxW (distributeWidths cw cols) 0 hpos
      _ = cw := hdw
  have := redistLoop_sum_le maxW
    (cw - (clampWidths (distributeWidths cw cols) maxW).sum).toNat
    (clampWidths (distributeWidths cw cols) maxW)
    (cw - (clampWidths (distributeWidths cw cols) maxW).sum)
  omega

theorem widthPlan_cap (cw : Int) (cols : List columnKind) (maxW : List Int)
    (j : Nat) (C : Int) (hm : maxW.get? j = some C) (hC : 0 < C) :
    ∀ w', (widthPlan cw cols maxW).get? j = some w' → w' ≤ C := by
  intro w' hw'
  unfold widthPlan at hw'
  have hm0 : maxW.get? (0 + j) = some C := by rw [Nat.zero_add]; exact hm
  have hjlt : j < (clampWidths (distributeWidths cw cols) maxW).length := by
    by_contra hge
    rw [List.get?_eq_none.mpr (by
      rw [redistLoop_length]
      omega)] at hw'
    exact Option.noConfusion hw'
  cases hres : (clampWidths (distributeWidths cw cols) maxW).get? j with
  | none =>
    rw [List.get?_eq_none] at hres
    omega
  | some w2 =>
    have hw2 : w2 ≤ C :=
      clampGo_cap maxW (distributeWidths cw cols) 0 j C hm0 hC w2 hres
    exact redistLoop_cap maxW _ _ _ j C w2 hm hC hres hw2 w' hw'

/-! ### Lemmas about the Content Width Tracker -/

theorem if_gt_eq_max (a b : Int) : (if b > a then b else a) = max a b := by
  rcases le_or_lt b a with h | h
  · rw [if_neg (by omega), max_eq_left h]
  · rw [if_pos h, max_eq_right (le_of_lt h)]

theorem updateMaxGo_length (L : String → Int) :
    ∀ (ms : List Int) (vs : List String),
      (updateMaxGo L ms vs).length = ms.length := by
  intro ms
  induction ms with
  | nil => intro vs; cases vs <;> rfl
  | cons m ms ih =>
    intro vs
    cases vs with
    | nil => rfl
    | cons v vs => simp [updateMaxGo, ih]

theorem updateMax_length (L : String → Int) (ms : List Int)
    (vs : List String) :
    (updateMaxContentWidths L ms vs).length = ms.length := by
  unfold updateMaxContentWidths
  split
  · rfl
  · exact updateMaxGo_length L ms vs

theorem updateMaxGo_comm (L : String → Int) :
    ∀ (ms : List Int) (a b : List String),
      updateMaxGo L (updateMaxGo L ms a) b =
        updateMaxGo L (updateMaxGo L ms b) a := by
  intro ms
  induction ms with
  | nil => intro a b; cases a <;> cases b <;> rfl
  | cons m ms ih =>
    intro a b
    cases a with
    | nil => cases b <;> rfl
    | cons x xs =>
      cases b with
      | nil => rfl
      | cons y ys =>
        simp only [updateMaxGo]
        congr 1
        · rw [if_gt_eq_max, if_gt_eq_max, if_gt_eq_max, if_gt_eq_max,
            max_assoc, max_assoc, max_comm (L x) (L y)]
        · exact ih xs ys

theorem updateMax_comm (L : String → Int) (ms : List Int)
    (a b : List String) :
    updateMaxContentWidths L (updateMaxContentWidths L ms a) b =
      updateMaxContentWidths L (updateMaxContentWidths L ms b) a := by
  unfold updateMaxContentWidths
  by_cases h : ms.length = 0
  · have : ms = [] := List.length_eq_zero.mp h
    subst this
    simp
  · rw [if_neg h, if_neg h,
      if_neg (by rw [updateMaxGo_length]; exact h),
      if_neg (by rw [updateMaxGo_length]; exact h)]
    exact updateMaxGo_comm L ms a b

theorem updateMaxGo_mono (L : String → Int) :
    ∀ (ms : List Int) (vs : List String) (i : Nat) (m m' : Int),
      ms.get? i = some m → (updateMaxGo L ms vs).get? i = some m' →
      m ≤ m' := by
  intro ms
  induction ms with
  | nil => intro vs i m m' hm _; simp at hm
  | cons m0 ms ih =>
    intro vs i m m' hm hm'
    cases vs with
    | nil =>
      rw [show updateMaxGo L (m0 :: ms) [] = m0 :: ms from rfl] at hm'
      rw [hm] at hm'
      simp only [Option.some.injEq] at hm'
      omega
    | cons v vs =>
      cases i with
      | zero =>
        simp only [List.get?_cons_zero, Option.some.injEq] at hm
        simp only [updateMaxGo, List.get?_cons_zero, Option.some.injEq] at hm'
        subst hm
        rw [if_gt_eq_max] at hm'
        omega
      | succ n =>
        simp only [List.get?_cons_succ] at hm
        simp only [updateMaxGo, List.get?_cons_succ] at hm'
        exact ih vs n m m' hm hm'

theorem updateMax_mono (L : String → Int) (ms : List Int) (vs : List String)
    (i : Nat) (m m' : Int) (hm : ms.get? i = some m)
    (hm' : (updateMaxContentWidths L ms vs).get? i = some m') : m ≤ m' := by
  unfold updateMaxContentWidths at hm'
  split at hm'
  · rw [hm] at hm'
    simp only [Option.some.injEq] at hm'
    omega
  · exact updateMaxGo_mono L ms vs i m m' hm hm'

theorem updateMaxGo_beyond_row (L : String → Int) :
    ∀ (ms : List Int) (vs : List String) (i : Nat), vs.length ≤ i →
      (updateMaxGo L ms vs).get? i = ms.get? i := by
  intro ms
  induction ms with
  | nil => intro vs i _; cases vs <;> rfl
  | cons m ms ih =>
    intro vs i hi
    cases vs with
    | nil => rfl
    | cons v vs =>
      cases i with
      | zero => simp at hi
      | succ n =>
        simp only [updateMaxGo, List.get?_cons_succ]
        exact ih vs n (by simpa using hi)

theorem updateMaxGo_take (L : String → Int) :
    ∀ (ms : List Int) (vs : List String),
      updateMaxGo L ms vs = updateMaxGo L ms (vs.take ms.length) := by
  intro ms
  induction ms with
  | nil => intro vs; cases vs <;> rfl
  | cons m ms ih =>
    intro vs
    cases vs with
    | nil => rfl
    | cons v vs =>
      simp only [updateMaxGo, List.length_cons, List.take_succ_cons]
      rw [← ih vs]

theorem updateMaxGo_at (L : String → Int) :
    ∀ (ms : List Int) (vs : List String) (i : Nat) (m : Int) (v : String),
      ms.get? i = some m → vs.get? i = some v →
      (updateMaxGo L ms vs).get? i = some (max m (L v)) := by
  intro ms
  induction ms with
  | nil => intro vs i m v hm _; simp at hm
  | cons m0 ms ih =>
    intro vs i m v hm hv
    cases vs with
    | nil => simp at hv
    | cons v0 vs =>
      cases i with
      | zero =>
        simp only [List.get?_cons_zero, Option.some.injEq] at hm hv
        subst hm; subst hv
        simp only [updateMaxGo, List.get?_cons_zero, if_gt_eq_max]
      | succ n =>
        simp only [List.get?_cons_succ] at hm hv
        simp only [updateMaxGo, List.get?_cons_succ]
        exact ih vs n m v hm hv

/-! ### The style overhead matches its specification formula -/

set_option maxHeartbeats 1000000 in
theorem maxSeparatorWidth_eq (st : TableStyle) :
    maxSeparatorWidth st = widestSeparatorSpec st := by
  unfold maxSeparatorWidth widestSeparatorSpec
  simp only [List.foldr_cons, List.foldr_nil]
  simp only [List.foldl_cons, List.foldl_nil]
  simp only [if_gt_eq_max]
  omega

theorem tableRowOverhead_eq (st : TableStyle) (n : Nat) (hn : 0 < n) :
    tableRowOverhead (some st) n = tableRowOverheadSpec st n := by
  simp only [tableRowOverhead, tableRowOverheadSpec,
    if_neg (by omega : ¬ n = 0), maxSeparatorWidth_eq]
  split_ifs <;> ring

theorem contentWidthForStyle_eq (st : TableStyle) (n : Nat) (hn : 0 < n)
    (t : Int) :
    contentWidthForStyle t (some st) n =
      max ((n : Int)) (t - tableRowOverheadSpec st n) := by
  simp only [contentWidthForStyle, if_neg (by omega : ¬ n = 0),
    tableRowOverhead_eq st n hn]
  split
  · rename_i h
    rw [max_eq_left (by omega)]
  · rename_i h
    rw [max_eq_right (by omega)]

/-! ### The terminal probe matches its priority specification -/

theorem detectTerminalWidth_eq (s o : Option Int) (e : String) :
    detectTerminalWidth s o e =
      firstPositive [s, o, if e = "" then none else atoi e] := by
  by_cases he : e = "" <;>
    simp [detectTerminalWidth, firstPositive, he]

/-! ### Wrapper lemmas for the tracker at the `updateMaxContentWidths`
level -/

theorem updateMax_beyond_row (L : String → Int) (ms : List Int)
    (vs : List String) (i : Nat) (hi : vs.length ≤ i) :
    (updateMaxContentWidths L ms vs).get? i = ms.get? i := by
  unfold updateMaxContentWidths
  split
  · rfl
  · exact updateMaxGo_beyond_row L ms vs i hi

theorem updateMax_take (L : String → Int) (ms : List Int)
    (vs : List String) :
    updateMaxContentWidths L ms vs =
      updateMaxContentWidths L ms (vs.take ms.length) := by
  unfold updateMaxContentWidths
  split
  · rfl
  · exact updateMaxGo_take L ms vs

theorem updateMax_at (L : String → Int) (ms : List Int) (vs : List String)
    (i : Nat) (m : Int) (v : String) (hm : ms.get? i = some m)
    (hv : vs.get? i = some v) :
    (updateMaxContentWidths L ms vs).get? i = some (max m (L v)) := by
  unfold updateMaxContentWidths
  split
  · rename_i h
    have : ms = [] := List.length_eq_zero.mp h
    subst this
    simp at hm
  · exact updateMaxGo_at L ms vs i m v hm hv

/-! ### Concrete evaluations used by scenario claims -/

theorem distributeWidths_100_kv :
    distributeWidths 100 [columnKey, columnValue] = [25, 75] := by
  rw [distributeWidths_eval_kv 100 (by norm_num)]
  decide

theorem widthPlan_100_kv_caps :
    widthPlan 100 [columnKey, columnValue] [0, 40] = [60, 40] := by
  simp only [widthPlan]
  rw [distributeWidths_100_kv]
  decide

theorem distributeWidths_1_k : distributeWidths 1 [columnKey] = [10] := by
  have h0 : ¬ ((1 : ℤ) ≤ 0) := by norm_num
  have hct : ([columnKey].contains columnTTL) = false := rfl
  simp only [distributeWidths, hct, if_neg h0]
  norm_num [basePercentageForColumn, minColWidth, List.map_cons, List.map_nil,
    List.sum_cons, List.sum_nil]
  decide

theorem distributeWidths_1_v : distributeWidths 1 [columnValue] = [10] := by
  have h0 : ¬ ((1 : ℤ) ≤ 0) := by norm_num
  have hct : ([columnValue].contains columnTTL) = false := rfl
  simp only [distributeWidths, hct, if_neg h0]
  norm_num [basePercentageForColumn, minColWidth, List.map_cons, List.map_nil,
    List.sum_cons, List.sum_nil]
  decide

theorem widthPlan_1_v : widthPlan 1 [columnValue] [0] = [10] := by
  simp only [widthPlan]
  rw [distributeWidths_1_v]
  decide

/-! ### Claim theorems -/

/-- Claim C1, counterexample: it is not true that for every non-empty
ColumnSet and every content width of at least the column count the
Proportional Allocator's widths sum exactly to the content width.  At
`columns = [Key]` and `content_width = 1 ≥ 1` the 10-character minimum
forces the single width to 10, so the sum is 10, not 1. -/
theorem C1_counterexample :
    ¬ (∀ (cols : List columnKind) (w : Int), cols ≠ [] →
        (cols.length : Int) ≤ w → (distributeWidths w cols).sum = w) := by
  intro h
  have h1 := h [columnKey] 1 (by simp) (by norm_num)
  rw [distributeWidths_1_k] at h1
  norm_num at h1

/-- Claim C1, amended: for every ColumnSet the CLI can build
(`requireColumns`) and every content width of at least 40 — enough to give
every column its 10-character minimum from its proportional share alone —
the Proportional Allocator's widths sum exactly to the content width. -/
theorem C1_proportional_sum (key value ttl : Bool)
    (cols : List columnKind) (h : requireColumns key value ttl = some cols)
    (w : ℤ) (hw : 40 ≤ w) : (distributeWidths w cols).sum = w :=
  distributeWidths_sum_valid key value ttl cols h w hw

/-- Witness for C1: the Key/Value column set at content width 100. -/
theorem C1_witness :
    (distributeWidths 100 [columnKey, columnValue]).sum = 100 :=
  C1_proportional_sum true true false [columnKey, columnValue] rfl 100
    (by norm_num)

/-- Claim C2, counterexample: it is not true that for every non-empty
ColumnSet, every content width, and every ContentWidths vector the final
WidthPlan's widths sum to at most the content width: at
`columns = [Value]`, `content_width = 1`, `caps = [0]` the plan is `[10]`
(minimum width), which sums to 10 > 1. -/
theorem C2_counterexample :
    ¬ (∀ (cols : List columnKind) (cw : Int) (maxW : List Int),
        cols ≠ [] →
        (∀ y ∈ widthPlan cw cols maxW, 1 ≤ y) ∧
          (widthPlan cw cols maxW).sum ≤ cw) := by
  intro h
  have h1 := (h [columnValue] 1 [0] (by simp)).2
  rw [widthPlan_1_v] at h1
  norm_num at h1

/-- Claim C2, amended: for every ColumnSet the CLI can build, every
content width of at least 40, and every ContentWidths vector, the final
WidthPlan assigns every column a width of at least 1 (never negative) and
the widths sum to at most the available content width. -/
theorem C2_plan_invariants (key value ttl : Bool)
    (cols : List columnKind) (h : requireColumns key value ttl = some cols)
    (cw : Int) (hcw : 40 ≤ cw) (maxW : List Int) :
    (∀ y ∈ widthPlan cw cols maxW, 1 ≤ y) ∧
      (widthPlan cw cols maxW).sum ≤ cw :=
  ⟨widthPlan_mem_ge_one cw cols maxW,
   widthPlan_sum_le key value ttl cols h cw hcw maxW⟩

/-- Witness for C2: scenario A's inputs. -/
theorem C2_witness :
    (∀ y ∈ widthPlan 100 [columnKey, columnValue] [0, 40], 1 ≤ y) ∧
      (widthPlan 100 [columnKey, columnValue] [0, 40]).sum ≤ 100 :=
  C2_plan_invariants true true false [columnKey, columnValue] rfl 100
    (by norm_num) [0, 40]

/-- Claim C3: for a column whose observed content cap `C` is known,
positive, and strictly below its proportional share, the final width at
that column never exceeds `C` — the clamping step lowers the width to `C`
and the round-robin redistribution skips every column standing at its
cap.  (The proof in fact never needs `C` below the share: a known
positive cap is always respected.) -/
theorem C3_cap_respected (cw : Int) (cols : List columnKind)
    (maxW : List Int) (j : Nat) (C w0 : Int)
    (hm : maxW.get? j = some C) (hC : 0 < C)
    (_hshare : (distributeWidths cw cols).get? j = some w0)
    (_hlt : C < w0)
    (w' : Int) (hw' : (widthPlan cw cols maxW).get? j = some w') :
    w' ≤ C :=
  widthPlan_cap cw cols maxW j C hm hC w' hw'

/-- Witness for C3: scenario A — Value's share is 75, its cap 40, and the
final plan `[60, 40]` keeps Value at 40. -/
theorem C3_witness : (40 : Int) ≤ 40 :=
  C3_cap_respected 100 [columnKey, columnValue] [0, 40] 1 40 75 rfl
    (by norm_num) (by rw [distributeWidths_100_kv]; rfl) (by norm_num) 40
    (by rw [widthPlan_100_kv_caps]; rfl)

/-- Claim C4: scenario A.  For columns `[Key, Value]` with no TTL and a
content width of 100 the Proportional Allocator returns `[25, 75]`; with
an observed cap of 40 on Value and none on Key the cap-and-redistribute
pass produces the final plan `[60, 40]`. -/
theorem C4_scenario_a :
    distributeWidths 100 [columnKey, columnValue] = [25, 75] ∧
      widthPlan 100 [columnKey, columnValue] [0, 40] = [60, 40] :=
  ⟨distributeWidths_100_kv, widthPlan_100_kv_caps⟩

/-- Claim C5: for every style and positive column count the style
overhead is padding width × column count, plus (column count − 1) × the
widest separator glyph width when the style draws separators and more
than one column is shown, plus the left and right border widths when the
style draws a border; the resulting content width is floored at the
column count, and with zero columns the usable width is returned
unchanged. -/
theorem C5_style_overhead (st : TableStyle) (n : Nat) (t : Int)
    (hn : 0 < n) :
    tableRowOverhead (some st) n = tableRowOverheadSpec st n ∧
      contentWidthForStyle t (some st) n =
        max ((n : Int)) (t - tableRowOverheadSpec st n) ∧
      (∀ (t' : Int) (sty : Option TableStyle),
        contentWidthForStyle t' sty 0 = t') :=
  ⟨tableRowOverhead_eq st n hn, contentWidthForStyle_eq st n hn t,
   fun _ _ => rfl⟩

/-- Witness for C5: a bordered, separated style with all glyphs one cell
wide, two columns, total width 80. -/
theorem C5_witness :
    tableRowOverhead
        (some ⟨⟨1, 1, 1, 1, 1, 1, 1, 1, 1, 1, 1, 1⟩, ⟨true, true⟩⟩) 2 =
      tableRowOverheadSpec
        ⟨⟨1, 1, 1, 1, 1, 1, 1, 1, 1, 1, 1, 1⟩, ⟨true, true⟩⟩ 2 ∧
    contentWidthForStyle 80
        (some ⟨⟨1, 1, 1, 1, 1, 1, 1, 1, 1, 1, 1, 1⟩, ⟨true, true⟩⟩) 2 =
      max ((2 : Nat) : Int)
        (80 - tableRowOverheadSpec
          ⟨⟨1, 1, 1, 1, 1, 1, 1, 1, 1, 1, 1, 1⟩, ⟨true, true⟩⟩ 2) ∧
    (∀ (t' : Int) (sty : Option TableStyle),
      contentWidthForStyle t' sty 0 = t') :=
  C5_style_overhead ⟨⟨1, 1, 1, 1, 1, 1, 1, 1, 1, 1, 1, 1⟩, ⟨true, true⟩⟩ 2
    80 (by norm_num)

/-- Claim C6: the round-robin redistribution loop terminates on every
input.  The loop is modelled with explicit fuel; one unit of fuel per
unit of `remaining` always reaches the loop's exit — `remaining = 0` or a
full pass without progress (every column at its known cap) — so the
result is the same for any larger fuel, even when `remaining` is still
positive at exit. -/
theorem C6_loop_terminates (m ws : List Int) (r : Int) (fuel : Nat)
    (hfuel : r.toNat ≤ fuel) :
    redistLoop m fuel ws r = redistLoop m r.toNat ws r :=
  redistLoop_fuel m fuel ws r r.toNat hfuel (le_refl _)

/-- Witness for C6: a single column already at its cap, remaining budget
3, evaluated with surplus fuel. -/
theorem C6_witness :
    redistLoop [10] 5 [10] 3 = redistLoop [10] 3 [10] 3 :=
  C6_loop_terminates [10] [10] 3 5 (by norm_num)

/-- Claim C7: the terminal probe consults, in priority order, the sink's
descriptor size, then the process stdout size, then a positive parse of
the `COLUMNS` value, and reports 0 otherwise; the orchestrator replaces a
non-positive probe with the fixed default 100, so a run in which every
probe source fails produces exactly the WidthPlan of an explicit
100-width run. -/
theorem C7_probe_priority :
    (∀ (s o : Option Int) (e : String),
      detectTerminalWidth s o e =
        firstPositive [s, o, if e = "" then none else atoi e]) ∧
    (∀ (s o : Option Int) (e : String) (sty : Option TableStyle)
        (cols : List columnKind) (maxW : List Int),
      detectTerminalWidth s o e = 0 →
      applyColumnConstraints s o e sty cols maxW =
        widthPlanForTotal 100 sty cols maxW) := by
  constructor
  · exact detectTerminalWidth_eq
  · intro s o e sty cols maxW h
    unfold applyColumnConstraints
    rw [h]
    unfold widthPlanForTotal
    norm_num

/-- Witness for C7: no descriptor, no stdout size, no environment
override. -/
theorem C7_witness :
    detectTerminalWidth none none "" =
      firstPositive [none, none, if "" = "" then none else atoi ""] ∧
    applyColumnConstraints none none "" none [columnKey] [] =
      widthPlanForTotal 100 none [columnKey] [] :=
  ⟨C7_probe_priority.1 none none "",
   C7_probe_priority.2 none none "" none [columnKey] [] rfl⟩

/-- Claim C8: for a fixed ColumnSet, feeding the same multiset of rows to
the Content Width Tracker in any order yields the same ContentWidths
vector (max-aggregation is order-insensitive), and a tracked entry never
decreases across an update. -/
theorem C8_tracker_order_insensitive :
    (∀ (L : String → Int) (init : List Int)
        (rows1 rows2 : List (List String)), rows1.Perm rows2 →
      rows1.foldl (updateMaxContentWidths L) init =
        rows2.foldl (updateMaxContentWidths L) init) ∧
    (∀ (L : String → Int) (ms : List Int) (vs : List String) (i : Nat)
        (m m' : Int), ms.get? i = some m →
      (updateMaxContentWidths L ms vs).get? i = some m' → m ≤ m') := by
  constructor
  · intro L init rows1 rows2 p
    exact p.foldl_eq' (fun x _ y _ z => updateMax_comm L z x y) init
  · intro L ms vs i m m' hm hm'
    exact updateMax_mono L ms vs i m m' hm hm'

/-- Witness for C8: two single-cell rows fed in both orders, and one
update of a tracker entry. -/
theorem C8_witness :
    [["ab"], ["abcd"]].foldl
        (updateMaxContentWidths (fun s => (s.length : Int))) [0] =
      [["abcd"], ["ab"]].foldl
        (updateMaxContentWidths (fun s => (s.length : Int))) [0] ∧
    (5 : Int) ≤ 5 :=
  ⟨C8_tracker_order_insensitive.1 (fun s => (s.length : Int)) [0]
      [["ab"], ["abcd"]] [["abcd"], ["ab"]] (List.Perm.swap _ _ _),
   C8_tracker_order_insensitive.2 (fun s => (s.length : Int)) [5] ["xyz"]
      0 5 5 rfl rfl⟩

/-- Claim C9: the CSV, HTML, and Markdown (and `md`) formats never invoke
the Layout Orchestrator — no column width configuration and no row-length
limit is applied and the markup renderer is called — while every
fixed-width table format (and `auto`) applies the width plan and the
row-length limit. -/
theorem C9_format_bypass :
    (∀ (s o : Option Int) (e : String) (sty : Option TableStyle)
        (cols : List columnKind) (maxW : List Int),
      listRenderEffects "csv" s o e sty cols maxW =
          some ⟨none, none, RenderKind.csv⟩ ∧
        listRenderEffects "html" s o e sty cols maxW =
          some ⟨none, none, RenderKind.html⟩ ∧
        listRenderEffects "markdown" s o e sty cols maxW =
          some ⟨none, none, RenderKind.markdown⟩ ∧
        listRenderEffects "md" s o e sty cols maxW =
          some ⟨none, none, RenderKind.markdown⟩) ∧
    (∀ (s o : Option Int) (e : String) (sty : Option TableStyle)
        (cols : List columnKind) (maxW : List Int),
      listRenderEffects "table" s o e sty cols maxW =
          some ⟨some (applyColumnConstraints s o e sty cols maxW).1,
            some (applyColumnConstraints s o e sty cols maxW).2,
            RenderKind.table⟩ ∧
        listRenderEffects "tabular" s o e sty cols maxW =
          some ⟨some (applyColumnConstraints s o e sty cols maxW).1,
            some (applyColumnConstraints s o e sty cols maxW).2,
            RenderKind.table⟩ ∧
        listRenderEffects "table-dark" s o e sty cols maxW =
          some ⟨some (applyColumnConstraints s o e sty cols maxW).1,
            some (applyColumnConstraints s o e sty cols maxW).2,
            RenderKind.table⟩ ∧
        listRenderEffects "table-bright" s o e sty cols maxW =
          some ⟨some (applyColumnConstraints s o e sty cols maxW).1,
            some (applyColumnConstraints s o e sty cols maxW).2,
            RenderKind.table⟩ ∧
        listRenderEffects "auto" s o e sty cols maxW =
          some ⟨some (applyColumnConstraints s o e sty cols maxW).1,
            some (applyColumnConstraints s o e sty cols maxW).2,
            RenderKind.table⟩) := by
  constructor
  · intro s o e sty cols maxW
    exact ⟨rfl, rfl, rfl, rfl⟩
  · intro s o e sty cols maxW
    exact ⟨rfl, rfl, rfl, rfl, rfl⟩

/-- Claim C10: a tracker update stays in bounds when the row's cell count
differs from the tracker's length — the tracker keeps its length, entries
beyond the row's length are unchanged, cells beyond the tracker's length
are ignored, and an entry covered by both becomes the max of the old
entry and the cell's measure. -/
theorem C10_tracker_bounds (L : String → Int) (ms : List Int)
    (vs : List String) :
    (updateMaxContentWidths L ms vs).length = ms.length ∧
    (∀ i, vs.length ≤ i →
      (updateMaxContentWidths L ms vs).get? i = ms.get? i) ∧
    updateMaxContentWidths L ms vs =
      updateMaxContentWidths L ms (vs.take ms.length) ∧
    (∀ (i : Nat) (m : Int) (v : String), ms.get? i = some m →
      vs.get? i = some v →
      (updateMaxContentWidths L ms vs).get? i = some (max m (L v))) :=
  ⟨updateMax_length L ms vs,
   fun i hi => updateMax_beyond_row L ms vs i hi,
   updateMax_take L ms vs,
   fun i m v hm hv => updateMax_at L ms vs i m v hm hv⟩

/-- Witness for C10: a two-entry tracker fed a one-cell row. -/
theorem C10_witness :
    (updateMaxContentWidths (fun s => (s.length : Int)) [1, 2]
        ["abc"]).get? 1 = [1, 2].get? 1 ∧
    (updateMaxContentWidths (fun s => (s.length : Int)) [1, 2]
        ["abc"]).get? 0 = some (max 1 (("abc".length : Int))) :=
  ⟨(C10_tracker_bounds (fun s => (s.length : Int)) [1, 2] ["abc"]).2.1 1
      (by norm_num),
   (C10_tracker_bounds (fun s => (s.length : Int)) [1, 2] ["abc"]).2.2.2 0
      1 "abc" rfl rfl⟩

end Pda
